import Mathlib

/-!
Verification of the core of `lib/log4js.js`: levels, the logger registry,
the logging fan-out, the level filter and the pattern-layout engine.
JavaScript numbers are embedded as exact rationals (every numeric constant
used by the source — the level ranks, `Number.MIN_VALUE`, `Number.MAX_VALUE` —
is exactly representable), strings as Lean `String`, `undefined`/non-string
arguments via dedicated sum types, and exceptions via `Except`.
-/

/-! ## Level -/

/-- `function Level(level, levelStr)`: a severity with numeric rank `level`
and display name `levelStr` (`toString` returns `levelStr`). -/
structure Level where
  level : ℚ
  levelStr : String
deriving DecidableEq, Repr

/-- `Number.MIN_VALUE`: the smallest positive IEEE-754 double, `2 ^ (-1074)`
(not negative infinity — it is a tiny positive number). -/
def NumberMinValue : ℚ := 1 / 2 ^ 1074

/-- `Number.MAX_VALUE`: the largest finite IEEE-754 double,
`(2 ^ 53 - 1) * 2 ^ 971`. -/
def NumberMaxValue : ℚ := (2 ^ 53 - 1) * 2 ^ 971

namespace levels

def ALL : Level := ⟨NumberMinValue, "ALL"⟩

def TRACE : Level := ⟨5000, "TRACE"⟩

def DEBUG : Level := ⟨10000, "DEBUG"⟩

def INFO : Level := ⟨20000, "INFO"⟩

def WARN : Level := ⟨30000, "WARN"⟩

def ERROR : Level := ⟨40000, "ERROR"⟩

def FATAL : Level := ⟨50000, "FATAL"⟩

def OFF : Level := ⟨NumberMaxValue, "OFF"⟩

end levels

/-- The fixed level set, in source (ascending-rank) order. -/
def levelsList : List Level :=
  [levels.ALL, levels.TRACE, levels.DEBUG, levels.INFO,
   levels.WARN, levels.ERROR, levels.FATAL, levels.OFF]

/-- The keys of the `levels` object literal. -/
def levelNames : List String :=
  ["ALL", "TRACE", "DEBUG", "INFO", "WARN", "ERROR", "FATAL", "OFF"]

/-- The property lookup `levels[s]` (plus its truthiness test): `some` when
`s` names one of the eight levels, `none` otherwise. -/
def lookupLevel (s : String) : Option Level :=
  if s = "ALL" then some levels.ALL
  else if s = "TRACE" then some levels.TRACE
  else if s = "DEBUG" then some levels.DEBUG
  else if s = "INFO" then some levels.INFO
  else if s = "WARN" then some levels.WARN
  else if s = "ERROR" then some levels.ERROR
  else if s = "FATAL" then some levels.FATAL
  else if s = "OFF" then some levels.OFF
  else none

/-- `String.prototype.toUpperCase`, character-wise (the source only ever
compares the result against the eight ASCII level names). -/
def jsToUpperCase (s : String) : String :=
  String.mk (s.data.map Char.toUpper)

/-- The possible JavaScript values handed to `Level.toLevel` and
`Logger.setLevel`: a string, an actual `Level` object, `null`, or
`undefined`/any other non-string value. -/
inductive LevelArg where
  | str (s : String)
  | levelObj (l : Level)
  | null
  | undefined
deriving DecidableEq

/-- `Level.toLevel(sArg, defaultLevel)`: `null` returns the default; a string
is uppercased and looked up in `levels`; every other value (including an
actual `Level` object) falls through to the default. The default itself may
be `undefined` (`none`), as in `logLevelFilter`. -/
def Level.toLevel (sArg : LevelArg) (defaultLevel : Option Level) : Option Level :=
  match sArg with
  | .null => defaultLevel
  | .str s =>
    match lookupLevel (jsToUpperCase s) with
    | some l => some l
    | none => defaultLevel
  | _ => defaultLevel

/-- `Level.toLevel` at a call site that supplies a (defined) default level,
as in the `Logger` constructor and `Logger.setLevel`; the result is then
always defined. -/
def Level.toLevelD (sArg : LevelArg) (defaultLevel : Level) : Level :=
  (Level.toLevel sArg (some defaultLevel)).getD defaultLevel

/-- `Level.prototype.isLessThanOrEqualTo` (the spec calls it `isAtMost`):
`this.level <= otherLevel.level`. -/
def Level.isLessThanOrEqualTo (a b : Level) : Bool :=
  decide (a.level ≤ b.level)

/-- `Level.prototype.isGreaterThanOrEqualTo` (the spec calls it `isAtLeast`):
`this.level >= otherLevel.level`. -/
def Level.isGreaterThanOrEqualTo (a b : Level) : Bool :=
  decide (a.level ≥ b.level)

/-! ## Dates (`Date.prototype.toFormattedString` and its helpers) -/

def ISO8601_FORMAT : String := "yyyy-MM-dd hh:mm:ss.SSS"

def ISO8601_WITH_TZ_OFFSET_FORMAT : String := "yyyy-MM-ddThh:mm:ssO"

def DATETIME_FORMAT : String := "dd MMM YYYY hh:mm:ss.SSS"

def ABSOLUTETIME_FORMAT : String := "hh:mm:ss.SSS"

/-- A JavaScript `Date`, represented by what its getters return.
`localeTimeString` stands for the locale/environment-dependent result of
`toLocaleTimeString()`, which the source consumes but does not compute. -/
structure JsDate where
  date : Nat
  month : Nat
  fullYear : Nat
  hours : Nat
  minutes : Nat
  seconds : Nat
  milliseconds : Nat
  timezoneOffset : Int
  localeTimeString : String
deriving DecidableEq, Repr

/-- `padWithZeros(vNumber, width)`: the source's while loop prepends one `"0"`
at a time until the string reaches `width`; this builds the zeros at once. -/
def padWithZeros (numAsString : String) (width : Nat) : String :=
  String.mk (List.replicate (width - numAsString.length) '0' ++ numAsString.data)

/-- `addZero(vNumber)` = `padWithZeros(vNumber, 2)` (the argument is already
coerced to a string by the caller-side `vNumber + ""`). -/
def addZero (numAsString : String) : String :=
  padWithZeros numAsString 2

/-- `offset(date)`: the timezone as `±HHMM`, `"+"` when `getTimezoneOffset()`
is negative and `"-"` otherwise. -/
def offsetStr (d : JsDate) : String :=
  let os := d.timezoneOffset.natAbs
  let h := toString (os / 60)
  let m := toString (os % 60)
  let h := if h.length = 1 then "0" ++ h else h
  let m := if m.length = 1 then "0" ++ m else m
  if d.timezoneOffset < 0 then "+" ++ h ++ m else "-" ++ h ++ m

/-- `String.prototype.replace(/pat/g, rep)` for a literal pattern: leftmost,
non-overlapping, and scanning resumes after the inserted replacement. -/
def jsReplaceAll (pat rep : List Char) : List Char → List Char
  | [] => []
  | c :: rest =>
    if pat.isPrefixOf (c :: rest) then
      rep ++ jsReplaceAll pat rep (List.drop (pat.length - 1) rest)
    else
      c :: jsReplaceAll pat rep rest
termination_by cs => cs.length
decreasing_by
  · simp only [List.length_cons, List.length_drop]
    omega
  · simp only [List.length_cons]
    omega

/-- `.replace(/y{1,4}/g, vYear)`: each maximal run of up to four `y`s becomes
one copy of `vYear` (a run of five `y`s is two matches, `yyyy` then `y`). -/
def replaceYs (vYear : List Char) : List Char → List Char
  | 'y' :: 'y' :: 'y' :: 'y' :: rest => vYear ++ replaceYs vYear rest
  | 'y' :: 'y' :: 'y' :: rest => vYear ++ replaceYs vYear rest
  | 'y' :: 'y' :: rest => vYear ++ replaceYs vYear rest
  | 'y' :: rest => vYear ++ replaceYs vYear rest
  | c :: rest => c :: replaceYs vYear rest
  | [] => []

/-- `format.indexOf(sub) > -1`: substring containment. -/
def hasSub (hay pat : List Char) : Bool :=
  match hay with
  | [] => pat.isEmpty
  | _ :: rest => pat.isPrefixOf hay || hasSub rest pat

/-- `Date.prototype.toFormattedString(format)`: `format || ISO8601_FORMAT`
(so an absent or empty format falls back to ISO8601), then the literal
token replacements in source order: `dd`, `MM`, `y{1,4}`, `hh`, `mm`, `ss`,
`SSS`, `O`. -/
def JsDate.toFormattedString (d : JsDate) (format : Option String) : String :=
  let fmt := match format with
    | none => ISO8601_FORMAT
    | some s => if s = "" then ISO8601_FORMAT else s
  let vDay := addZero (toString d.date)
  let vMonth := addZero (toString (d.month + 1))
  let vYearLong := addZero (toString d.fullYear)
  let vYearShort := addZero (String.mk (((toString d.fullYear).data.drop 3).take 1))
  let vYear := if hasSub fmt.data "yyyy".data then vYearLong else vYearShort
  let vHour := addZero (toString d.hours)
  let vMinute := addZero (toString d.minutes)
  let vSecond := addZero (toString d.seconds)
  let vMillisecond := padWithZeros (toString d.milliseconds) 3
  let vTimeZone := offsetStr d
  let f := fmt.data
  let f := jsReplaceAll "dd".data vDay.data f
  let f := jsReplaceAll "MM".data vMonth.data f
  let f := replaceYs vYear.data f
  let f := jsReplaceAll "hh".data vHour.data f
  let f := jsReplaceAll "mm".data vMinute.data f
  let f := jsReplaceAll "ss".data vSecond.data f
  let f := jsReplaceAll "SSS".data vMillisecond.data f
  let f := jsReplaceAll "O".data vTimeZone.data f
  String.mk f

/-! ## Logger and LoggingEvent data -/

/-- Appenders are single-argument callables; the embedding names each one by
an abstract identifier and observes invocations as `(appender, event)` pairs. -/
abbrev AppId := Nat

def DEFAULT_CATEGORY : String := "[default]"

def ALL_CATEGORIES : String := "[all]"

/-- `function Logger(name, level)` plus its EventEmitter state: `listeners`
is the ordered list of `"log"` listeners (the bound appenders). `id` models
JavaScript object identity (allocation order) so that reference equality of
loggers is expressible. -/
structure Logger where
  id : Nat
  category : String
  level : Level
  listeners : List AppId
deriving DecidableEq, Repr

/-- An exception value as `basicLayout` consumes it. -/
structure JsException where
  name : String
  message : String
  stack : Option String
deriving DecidableEq, Repr

/-- `function LoggingEvent(categoryName, level, message, exception, logger)`:
`startTime` is captured at construction (`new Date()` = the log-call moment,
passed in here explicitly since the embedding is pure). -/
structure LoggingEvent where
  startTime : JsDate
  categoryName : String
  message : String
  exception : Option JsException
  level : Level
  logger : Logger
deriving DecidableEq, Repr

/-! ## Pattern layout engine

The template scanner regex is
`/%(-?[0-9]+)?(\.?[0-9]+)?([cdmnpr%])(\{([^\}]+)\})?|([^%]+)/`.
It is embedded as a deterministic greedy parse: each optional group consumes
only `-`, `.` and digit characters, none of which is a conversion character,
so releasing characters through backtracking can never turn a failing
position into a matching one — the greedy parse finds a match at a position
exactly when the backtracking engine does, and the same one. -/

def recognizedConvChars : List Char := ['c', 'd', 'm', 'n', 'p', 'r', '%']

/-- The digit run consumed by `parseInt(s, 10)` after sign handling. -/
def digitsVal (cs : List Char) : Option Nat :=
  let ds := cs.takeWhile Char.isDigit
  if ds.isEmpty then none
  else some (ds.foldl (fun acc c => acc * 10 + (c.toNat - 48)) 0)

/-- `parseInt(s, 10)`: skip leading whitespace, optional sign, then the
longest digit prefix; `none` models `NaN` (no digits). -/
def jsParseInt (s : String) : Option Int :=
  let cs := s.data.dropWhile fun c => c == ' ' || c == '\t' || c == '\n' || c == '\r'
  match cs with
  | '-' :: rest => (digitsVal rest).map (fun n => -(n : Int))
  | '+' :: rest => (digitsVal rest).map (fun n => (n : Int))
  | _ => (digitsVal cs).map (fun n => (n : Int))

/-- One directive match: the regex's capture groups `result[0]` (`matched`),
`result[1]` (`padding`), `result[2]` (`truncation`), `result[3]` (`conv`)
and `result[5]` (`specifier`). -/
structure DirectiveMatch where
  matched : String
  padding : Option String
  truncation : Option String
  conv : Char
  specifier : Option String
deriving DecidableEq, Repr

/-- Group `(-?[0-9]+)?`: greedily an optional `-` followed by one or more
digits, or nothing. Returns the consumed characters and the remainder. -/
def parsePadding (cs : List Char) : Option (List Char) × List Char :=
  match cs with
  | [] => (none, cs)
  | c :: rest =>
    if c = '-' then
      let ds := rest.takeWhile Char.isDigit
      if ds.isEmpty then (none, cs) else (some (c :: ds), rest.dropWhile Char.isDigit)
    else
      let ds := cs.takeWhile Char.isDigit
      if ds.isEmpty then (none, cs) else (some ds, cs.dropWhile Char.isDigit)

/-- Group `(\.?[0-9]+)?`: greedily an optional `.` followed by one or more
digits, or nothing (after the padding group the bare-digit branch can never
fire, but it is part of the group). -/
def parseTruncation (cs : List Char) : Option (List Char) × List Char :=
  match cs with
  | [] => (none, cs)
  | c :: rest =>
    if c = '.' then
      let ds := rest.takeWhile Char.isDigit
      if ds.isEmpty then (none, cs) else (some (c :: ds), rest.dropWhile Char.isDigit)
    else
      let ds := cs.takeWhile Char.isDigit
      if ds.isEmpty then (none, cs) else (some ds, cs.dropWhile Char.isDigit)

/-- Group `(\{([^\}]+)\})?`: a braced, non-empty, brace-free argument, or
nothing (an unterminated or empty `{}` makes the whole group fail, so it is
skipped and the braces are left in the remainder). -/
def parseSpecifier (cs : List Char) : Option (List Char) × List Char :=
  match cs with
  | [] => (none, cs)
  | c :: rest =>
    if c = '\x7b' then
      let body := rest.takeWhile (fun d => d != '\x7d')
      if body.isEmpty then (none, cs)
      else
        match rest.dropWhile (fun d => d != '\x7d') with
        | '\x7d' :: after => (some body, after)
        | _ => (none, cs)
    else (none, cs)

/-- First regex alternative `%(-?[0-9]+)?(\.?[0-9]+)?([cdmnpr%])(\{([^\}]+)\})?`
tried at the current position; on success returns the captures and the
remainder of the input after the match. -/
def tryAlt1 (cs : List Char) : Option (DirectiveMatch × List Char) :=
  match cs with
  | [] => none
  | c :: rest =>
    if c = '%' then
      let (pad, r1) := parsePadding rest
      let (trunc, r2) := parseTruncation r1
      match r2 with
      | [] => none
      | c2 :: r3 =>
        if c2 ∈ recognizedConvChars then
          let (spec, r4) := parseSpecifier r3
          let matched := '%' :: ((pad.getD []) ++ (trunc.getD []) ++ [c2] ++
            (match spec with
             | some b => '\x7b' :: (b ++ ['\x7d'])
             | none => []))
          some ({ matched := String.mk matched,
                  padding := pad.map String.mk,
                  truncation := trunc.map String.mk,
                  conv := c2,
                  specifier := spec.map String.mk }, r4)
        else none
    else none

/-- Second regex alternative `([^%]+)`: the longest non-empty run of
characters other than `%`. -/
def tryAlt2 (cs : List Char) : Option (String × List Char) :=
  let run := cs.takeWhile (fun c => c != '%')
  if run.isEmpty then none else some (String.mk run, cs.dropWhile (fun c => c != '%'))

/-- `"a.b.c".split(".")` — JavaScript semantics: the empty string splits to
`[""]` and consecutive dots produce empty segments. -/
def splitDotList : List Char → List (List Char)
  | [] => [[]]
  | '.' :: rest => [] :: splitDotList rest
  | c :: rest =>
    match splitDotList rest with
    | seg :: segs => (c :: seg) :: segs
    | [] => [[c]]

/-- `loggerNameBits.join(".")`. -/
def jsJoinDot : List String → String
  | [] => ""
  | [b] => b
  | b :: rest => b ++ "." ++ jsJoinDot rest

/-- The `switch (conversionCharacter)` computing the raw replacement string.
For `c` with a specifier: `parseInt` of the specifier, keep the last
`precision` dot-separated category segments unless `precision >= bits.length`;
a `NaN` precision makes the comparison false and `slice(length - NaN)` is
`slice(0)`, i.e. the full split rejoined. The `default` branch (the matched
text itself) is unreachable, because `tryAlt1` only ever produces the seven
recognized conversion characters. -/
def renderConversion (e : LoggingEvent) (d : DirectiveMatch) : String :=
  match d.conv with
  | 'c' =>
    let loggerName := e.categoryName
    (match d.specifier with
     | some spec =>
       let loggerNameBits := (splitDotList e.categoryName.data).map String.mk
       (match jsParseInt spec with
        | some precision =>
          if (loggerNameBits.length : Int) ≤ precision then loggerName
          else jsJoinDot (loggerNameBits.drop (((loggerNameBits.length : Int) - precision).toNat))
        | none => jsJoinDot loggerNameBits)
     | none => loggerName)
  | 'd' =>
    let dateFormat := match d.specifier with
      | none => ISO8601_FORMAT
      | some spec =>
        if spec = "ISO8601" then ISO8601_FORMAT
        else if spec = "ABSOLUTE" then ABSOLUTETIME_FORMAT
        else if spec = "DATE" then DATETIME_FORMAT
        else spec
    e.startTime.toFormattedString (some dateFormat)
  | 'm' => e.message
  | 'n' => "\n"
  | 'p' => e.level.levelStr
  | 'r' => "" ++ e.startTime.localeTimeString
  | '%' => "%"
  | _ => d.matched

/-- `replacement.substring(0, len)` with `len = parseInt(truncation.substr(1))`:
keep the leading `len` characters. -/
def applyTruncation (replacement : String) (truncation : Option String) : String :=
  match truncation with
  | none => replacement
  | some t =>
    let len := (jsParseInt (String.mk (t.data.drop 1))).getD 0
    String.mk (replacement.data.take len.toNat)

/-- The padding while-loops: a leading `-` right-pads with spaces to the given
width, otherwise left-pad (no-ops once the field already meets the width). -/
def applyPadding (replacement : String) (padding : Option String) : String :=
  match padding with
  | none => replacement
  | some p =>
    match p.data with
    | '-' :: ds =>
      let len := ((jsParseInt (String.mk ds)).getD 0).toNat
      String.mk (replacement.data ++ List.replicate (len - replacement.data.length) ' ')
    | _ =>
      let len := ((jsParseInt p).getD 0).toNat
      String.mk (List.replicate (len - replacement.data.length) ' ' ++ replacement.data)

/-- Raw replacement, then truncation, then padding — the order the source
applies them in. -/
def renderDirective (e : LoggingEvent) (d : DirectiveMatch) : String :=
  applyPadding (applyTruncation (renderConversion e d) d.truncation) d.padding

/-- The `while ((result = regex.exec(searchString)))` loop, fused with the
regex engine's left-to-right position scan: at each position the directive
alternative is tried first, then the literal-text alternative; a position
where neither matches is skipped without emitting anything (the loop advances
past `result.index`, dropping any unmatched prefix). One fuel unit is spent
per character position, and every step consumes at least one character, so
the string's length (supplied by `formatPattern`) is always enough fuel. -/
def runPatternF (e : LoggingEvent) : Nat → List Char → String
  | 0, _ => ""
  | _, [] => ""
  | fuel + 1, c :: rest =>
    match tryAlt1 (c :: rest) with
    | some (d, rem) => renderDirective e d ++ runPatternF e fuel rem
    | none =>
      match tryAlt2 (c :: rest) with
      | some (t, rem) => t ++ runPatternF e fuel rem
      | none => runPatternF e fuel rest

/-- The pattern-matching loop applied to an actual template string — what the
body of the closure returned by `patternLayout` computes when its
`searchString` is a string. -/
def formatPattern (pattern : String) (e : LoggingEvent) : String :=
  runPatternF e pattern.length pattern.data

/-- `patternLayout(pattern)` and its returned closure. The local
`pattern = pattern || patternLayout.TTCC_CONVERSION_PATTERN` computes a
compiled template (whose fallback property is never assigned — only a local
variable of that name exists), but the returned closure never reads it: its
`searchString` is `this.pattern`. At the source's own call sites
(`consoleAppender` and `fileAppender` invoke `layout(loggingEvent)` with no
receiver) `this.pattern` is `undefined`: `regex.exec(undefined)` coerces the
argument to the string `"undefined"` and matches it as literal text, after
which `searchString.substr(...)` is evaluated on the value `undefined` and
throws a `TypeError`. `thisPattern` is the value of `this.pattern` at the
invocation (`none` = `undefined`, the case that actually occurs). -/
def patternLayout (pattern : Option String) (thisPattern : Option String)
    (e : LoggingEvent) : Except String String :=
  match thisPattern with
  | none => Except.error "TypeError: Cannot call method substr of undefined"
  | some p => Except.ok (formatPattern p e)

/-- `logLevelFilter(levelString, appender)` applied to one event: the
threshold is `Level.toLevel(levelString)` with no default, so an
unrecognized name yields `undefined` and the comparison
`logEvent.level.isGreaterThanOrEqualTo(undefined)` dereferences
`otherLevel.level` and throws; otherwise the event is forwarded iff its
level is at least the threshold. -/
def logLevelFilter (levelString : LevelArg) (appender : AppId)
    (logEvent : LoggingEvent) : Except String (List (AppId × LoggingEvent)) :=
  match Level.toLevel levelString none with
  | none => Except.error "TypeError: Cannot read property level of undefined"
  | some level =>
    Except.ok (if logEvent.level.isGreaterThanOrEqualTo level then [(appender, logEvent)] else [])

/-! ## The registry (`loggers`, `appenders`, `getLogger`, `addAppender`,
`clearAppenders`) and the logging fan-out.

JavaScript objects used as string-keyed maps are embedded as
insertion-ordered association lists: assigning an existing key overwrites in
place, assigning a fresh key appends. -/

/-- `m[k]` (with the absent case as `none`). -/
def alookup {α : Type} (m : List (String × α)) (k : String) : Option α :=
  match m with
  | [] => none
  | (k', v) :: rest => if k' = k then some v else alookup rest k

/-- `m[k] = v`. -/
def aupdate {α : Type} (m : List (String × α)) (k : String) (v : α) : List (String × α) :=
  match m with
  | [] => [(k, v)]
  | (k', v') :: rest => if k' = k then (k, v) :: rest else (k', v') :: aupdate rest k v

/-- The module-level mutable state: `loggers`, `appenders`, plus an
allocation counter backing the `Logger.id` identity model. -/
structure RegState where
  loggers : List (String × Logger)
  appenders : List (String × List AppId)
  nextId : Nat
deriving DecidableEq, Repr

/-- The state after `var loggers = {}, appenders = {}`. -/
def initState : RegState := ⟨[], [], 0⟩

/-- `logger.addListener("log", appender)`: EventEmitter appends to the
listener list. -/
def addListener (lg : Logger) (a : AppId) : Logger :=
  { lg with listeners := lg.listeners ++ [a] }

/-- `new Logger(name)` (the `level` argument is `undefined` at the only
construction site): `this.category = name || DEFAULT_CATEGORY` — note the
empty string is falsy — and `this.level = Level.toLevel(undefined,
levels.TRACE)` = `TRACE`. -/
def mkLogger (id : Nat) (name : String) : Logger :=
  { id := id,
    category := if name = "" then DEFAULT_CATEGORY else name,
    level := Level.toLevelD .undefined levels.TRACE,
    listeners := [] }

/-- The two `forEach` loops run at logger creation: first the appenders
pending under the logger's own category, then those pending under
`ALL_CATEGORIES`, each appended in list order. -/
def newLoggerListeners (st : RegState) (cat : String) : List AppId :=
  (alookup st.appenders cat).getD [] ++ (alookup st.appenders ALL_CATEGORIES).getD []

/-- The category a `getLogger` argument resolves to: any missing or
non-string argument (`none`) is replaced by `DEFAULT_CATEGORY`. -/
def getLoggerCat (categoryName : Option String) : String :=
  categoryName.getD DEFAULT_CATEGORY

/-- `getLogger(categoryName)`: return the cached logger, or create one, bind
the pending appenders (own category first, then the wildcard), cache it and
return it. Returns the updated state and the returned logger. -/
def getLogger (st : RegState) (categoryName : Option String) : RegState × Logger :=
  let cat := getLoggerCat categoryName
  match alookup st.loggers cat with
  | some lg => (st, lg)
  | none =>
    let lg := { mkLogger st.nextId cat with listeners := newLoggerListeners st cat }
    ({ st with loggers := aupdate st.loggers cat lg, nextId := st.nextId + 1 }, lg)

/-- The body of the `args.forEach(function(category) {...})` loop in
`addAppender`, for one category: push onto the pending list (created if
absent); if the category is the wildcard, bind to every existing logger,
else bind to the category's logger when it already exists. -/
def addAppenderCat (st : RegState) (appender : AppId) (category : String) : RegState :=
  let pending := (alookup st.appenders category).getD []
  let st1 := { st with appenders := aupdate st.appenders category (pending ++ [appender]) }
  if category = ALL_CATEGORIES then
    { st1 with loggers := st1.loggers.map (fun p => (p.1, addListener p.2 appender)) }
  else
    match alookup st1.loggers category with
    | some lg => { st1 with loggers := aupdate st1.loggers category (addListener lg appender) }
    | none => st1

/-- `addAppender(appender, categories...)`: no categories (or `undefined`)
means `[ALL_CATEGORIES]`; a supplied array (possibly a singleton, possibly
empty) is iterated in order. -/
def addAppender (st : RegState) (appender : AppId) (cats : Option (List String)) : RegState :=
  (cats.getD [ALL_CATEGORIES]).foldl (fun s c => addAppenderCat s appender c) st

/-- `clearAppenders()`: `appenders = []` and
`removeAllListeners("log")` on every existing logger. -/
def clearAppenders (st : RegState) : RegState :=
  { st with appenders := [],
            loggers := st.loggers.map (fun p => (p.1, { p.2 with listeners := [] })) }

/-- `Logger.prototype.setLevel(level)`. -/
def Logger.setLevel (lg : Logger) (level : LevelArg) : Logger :=
  { lg with level := Level.toLevelD level levels.TRACE }

/-- `Logger.prototype.log(logLevel, message, exception)`: build one
`LoggingEvent` and `emit("log", loggingEvent)` — the emitter invokes every
listener once, synchronously, in registration order, with that one event.
The result is the invocation trace. -/
def Logger.logCall (lg : Logger) (logLevel : Level) (message : String)
    (exception : Option JsException) (now : JsDate) : List (AppId × LoggingEvent) :=
  let loggingEvent : LoggingEvent :=
    { startTime := now, categoryName := lg.category, message := message,
      exception := exception, level := logLevel, logger := lg }
  lg.listeners.map (fun a => (a, loggingEvent))

/-- The six severity-named methods installed by the
`['Trace','Debug','Info','Warn','Error','Fatal'].forEach` loop. -/
inductive Severity where
  | trace
  | debug
  | info
  | warn
  | error
  | fatal
deriving DecidableEq, Repr

/-- The `levelString` each prototype method is built from. -/
def Severity.levelString : Severity → String
  | .trace => "Trace"
  | .debug => "Debug"
  | .info => "Info"
  | .warn => "Warn"
  | .error => "Error"
  | .fatal => "Fatal"

/-- `var level = Level.toLevel(levelString)` — no default supplied (every one
of the six names is recognized, so the lookup in fact always succeeds). -/
def Severity.level (s : Severity) : Option Level :=
  Level.toLevel (.str s.levelString) none

/-- A severity method `logger.trace(...)` … `logger.fatal(...)`: if
`this.isLevelEnabled(level)` — i.e. `this.level.isLessThanOrEqualTo(level)` —
fails, nothing happens (no event is constructed); otherwise `this.log(...)`
fans the one event out. The unreachable `none` severity-level case would be
a thrown `TypeError` in JavaScript. -/
def Logger.severityCall (lg : Logger) (s : Severity) (message : String)
    (exception : Option JsException) (now : JsDate) :
    Except String (List (AppId × LoggingEvent)) :=
  match s.level with
  | none => Except.error "TypeError: Cannot read property level of undefined"
  | some level =>
    Except.ok (if lg.level.isLessThanOrEqualTo level then
                 lg.logCall level message exception now
               else [])

/-- The registry's mutating operations, for stating invariants over runs. -/
inductive RegOp where
  | get (categoryName : Option String)
  | add (appender : AppId) (cats : Option (List String))
  | clear
deriving DecidableEq, Repr

def runOp (st : RegState) : RegOp → RegState
  | .get c => (getLogger st c).1
  | .add a cats => addAppender st a cats
  | .clear => clearAppenders st

def runOps (st : RegState) (ops : List RegOp) : RegState :=
  ops.foldl runOp st

/-- No `clearAppenders` call in the run. -/
abbrev NoClear (ops : List RegOp) : Prop :=
  ∀ op ∈ ops, op ≠ RegOp.clear

def RegOp.isAdd : RegOp → Bool
  | .add _ _ => true
  | _ => false

/-- No `addAppender` call in the run. -/
abbrev NoAdd (ops : List RegOp) : Prop :=
  ∀ op ∈ ops, op.isAdd = false

/-- The appenders a run of operations adds under category `c`, in call order
(one entry per occurrence of `c` in an `addAppender` call's category list). -/
def addsFor (c : String) (ops : List RegOp) : List AppId :=
  ops.flatMap fun op =>
    match op with
    | .add a cats => ((cats.getD [ALL_CATEGORIES]).filter (fun x => x = c)).map (fun _ => a)
    | _ => []

/-- A state reachable from the initial state by registry operations. -/
def Reachable (st : RegState) : Prop :=
  ∃ ops, runOps initState ops = st

/-! ## Association-list lemmas -/

theorem alookup_aupdate_self {α : Type} (m : List (String × α)) (k : String) (v : α) :
    alookup (aupdate m k v) k = some v := by
  induction m with
  | nil => simp [alookup, aupdate]
  | cons p rest ih =>
    obtain ⟨k', v'⟩ := p
    by_cases h : k' = k
    · simp [alookup, aupdate, h]
    · simp [alookup, aupdate, h, ih]

theorem alookup_aupdate_ne {α : Type} (m : List (String × α)) (k k'' : String) (v : α)
    (h : k'' ≠ k) : alookup (aupdate m k v) k'' = alookup m k'' := by
  have h2 : k ≠ k'' := Ne.symm h
  induction m with
  | nil => simp [alookup, aupdate, h2]
  | cons p rest ih =>
    obtain ⟨k', v'⟩ := p
    by_cases hk : k' = k
    · subst hk
      simp [alookup, aupdate, h2]
    · simp [alookup, aupdate, hk, ih]

theorem aupdate_of_alookup_none {α : Type} (m : List (String × α)) (k : String) (v : α)
    (h : alookup m k = none) : aupdate m k v = m ++ [(k, v)] := by
  induction m with
  | nil => simp [aupdate]
  | cons p rest ih =>
    obtain ⟨k', v'⟩ := p
    by_cases hk : k' = k
    · simp [alookup, hk] at h
    · simp only [alookup, hk, if_false] at h
      simp [aupdate, hk, ih h]

theorem mem_of_alookup_eq_some {α : Type} (m : List (String × α)) (k : String) (v : α)
    (h : alookup m k = some v) : (k, v) ∈ m := by
  induction m with
  | nil => simp [alookup] at h
  | cons p rest ih =>
    obtain ⟨k', v'⟩ := p
    by_cases hk : k' = k
    · subst hk
      simp [alookup] at h
      simp [h]
    · simp only [alookup, hk, if_false] at h
      exact List.mem_cons_of_mem _ (ih h)

theorem mem_aupdate {α : Type} {m : List (String × α)} {k : String} {v : α} {p : String × α}
    (h : p ∈ aupdate m k v) : p = (k, v) ∨ p ∈ m := by
  induction m with
  | nil => simpa [aupdate] using h
  | cons q rest ih =>
    obtain ⟨k', v'⟩ := q
    by_cases hk : k' = k
    · simp only [aupdate, hk, if_true] at h
      rcases List.mem_cons.1 h with h | h
      · exact Or.inl h
      · exact Or.inr (List.mem_cons_of_mem _ h)
    · simp only [aupdate, hk, if_false] at h
      rcases List.mem_cons.1 h with h | h
      · exact Or.inr (by simp [h])
      · rcases ih h with h | h
        · exact Or.inl h
        · exact Or.inr (List.mem_cons_of_mem _ h)

theorem alookup_map {α β : Type} (m : List (String × α)) (f : α → β) (k : String) :
    alookup (m.map (fun p => (p.1, f p.2))) k = (alookup m k).map f := by
  induction m with
  | nil => simp [alookup]
  | cons p rest ih =>
    obtain ⟨k', v'⟩ := p
    by_cases hk : k' = k
    · simp [alookup, hk]
    · simp [alookup, hk, ih]

/-! ## Registry lemmas -/

theorem getLogger_cached (st : RegState) (c : Option String) {lg : Logger}
    (h : alookup st.loggers (getLoggerCat c) = some lg) :
    getLogger st c = (st, lg) := by
  simp [getLogger, h]

theorem getLogger_create (st : RegState) (c : Option String)
    (h : alookup st.loggers (getLoggerCat c) = none) :
    getLogger st c =
      ({ st with
           loggers := aupdate st.loggers (getLoggerCat c)
             { mkLogger st.nextId (getLoggerCat c) with
                 listeners := newLoggerListeners st (getLoggerCat c) },
           nextId := st.nextId + 1 },
       { mkLogger st.nextId (getLoggerCat c) with
           listeners := newLoggerListeners st (getLoggerCat c) }) := by
  simp [getLogger, h]

/-- The state `addAppender`'s per-category body produces never loses the
wildcard-bound property. -/
def wildcardHolds (a : AppId) (st : RegState) : Prop :=
  a ∈ (alookup st.appenders ALL_CATEGORIES).getD [] ∧
  ∀ p ∈ st.loggers, a ∈ p.2.listeners

theorem addAppenderCat_all (st : RegState) (a : AppId) :
    addAppenderCat st a ALL_CATEGORIES =
      { st with
          appenders := aupdate st.appenders ALL_CATEGORIES
            ((alookup st.appenders ALL_CATEGORIES).getD [] ++ [a]),
          loggers := st.loggers.map (fun p => (p.1, addListener p.2 a)) } := rfl

theorem addAppenderCat_ne_some (st : RegState) (a : AppId) (c : String) (lg : Logger)
    (hc : c ≠ ALL_CATEGORIES) (hl : alookup st.loggers c = some lg) :
    addAppenderCat st a c =
      { st with
          appenders := aupdate st.appenders c ((alookup st.appenders c).getD [] ++ [a]),
          loggers := aupdate st.loggers c (addListener lg a) } := by
  simp only [addAppenderCat, if_neg hc, hl]

theorem addAppenderCat_ne_none (st : RegState) (a : AppId) (c : String)
    (hc : c ≠ ALL_CATEGORIES) (hl : alookup st.loggers c = none) :
    addAppenderCat st a c =
      { st with
          appenders := aupdate st.appenders c ((alookup st.appenders c).getD [] ++ [a]) } := by
  simp only [addAppenderCat, if_neg hc, hl]

theorem wildcardHolds_addAll (st : RegState) (a : AppId) :
    wildcardHolds a (addAppenderCat st a ALL_CATEGORIES) := by
  rw [addAppenderCat_all]
  refine ⟨?_, ?_⟩
  · rw [alookup_aupdate_self]
    simp
  · intro p hp
    simp only [List.mem_map] at hp
    obtain ⟨q, _, rfl⟩ := hp
    simp [addListener]

theorem wildcardHolds_get (st : RegState) (a : AppId) (c : Option String)
    (h : wildcardHolds a st) : wildcardHolds a (getLogger st c).1 := by
  obtain ⟨h1, h2⟩ := h
  cases hl : alookup st.loggers (getLoggerCat c) with
  | some lg => rw [getLogger_cached st c hl]; exact ⟨h1, h2⟩
  | none =>
    rw [getLogger_create st c hl]
    refine ⟨h1, ?_⟩
    intro p hp
    simp only at hp
    rw [aupdate_of_alookup_none _ _ _ hl] at hp
    rcases List.mem_append.1 hp with hp | hp
    · exact h2 p hp
    · simp only [List.mem_singleton] at hp
      subst hp
      simp only [newLoggerListeners]
      exact List.mem_append.2 (Or.inr h1)

theorem wildcardHolds_addCat (st : RegState) (a b : AppId) (c : String)
    (h : wildcardHolds a st) : wildcardHolds a (addAppenderCat st b c) := by
  obtain ⟨h1, h2⟩ := h
  by_cases hc : c = ALL_CATEGORIES
  · subst hc
    rw [addAppenderCat_all]
    refine ⟨?_, ?_⟩
    · rw [alookup_aupdate_self]
      exact List.mem_append.2 (Or.inl h1)
    · intro p hp
      simp only [List.mem_map] at hp
      obtain ⟨q, hq, rfl⟩ := hp
      simp only [addListener]
      exact List.mem_append.2 (Or.inl (h2 q hq))
  · have hALL : (ALL_CATEGORIES : String) ≠ c := fun hh => hc hh.symm
    cases hl : alookup st.loggers c with
    | some lg =>
      rw [addAppenderCat_ne_some st b c lg hc hl]
      refine ⟨?_, ?_⟩
      · rw [alookup_aupdate_ne _ _ _ _ hALL]
        exact h1
      · intro p hp
        rcases mem_aupdate hp with hp | hp
        · subst hp
          simp only [addListener]
          exact List.mem_append.2 (Or.inl (h2 _ (mem_of_alookup_eq_some _ _ _ hl)))
        · exact h2 p hp
    | none =>
      rw [addAppenderCat_ne_none st b c hc hl]
      exact ⟨by rw [alookup_aupdate_ne _ _ _ _ hALL]; exact h1, h2⟩

theorem wildcardHolds_addAppender (st : RegState) (a b : AppId) (cats : Option (List String))
    (h : wildcardHolds a st) : wildcardHolds a (addAppender st b cats) := by
  unfold addAppender
  generalize cats.getD [ALL_CATEGORIES] = l
  induction l generalizing st with
  | nil => exact h
  | cons c cs ih => exact ih _ (wildcardHolds_addCat _ _ _ _ h)

theorem wildcardHolds_runOps (a : AppId) (ops : List RegOp) (st : RegState)
    (hnc : NoClear ops) (h : wildcardHolds a st) : wildcardHolds a (runOps st ops) := by
  induction ops generalizing st with
  | nil => exact h
  | cons op rest ih =>
    have hop : op ≠ RegOp.clear := hnc op (List.mem_cons_self _ _)
    have hrest : NoClear rest := fun o ho => hnc o (List.mem_cons_of_mem _ ho)
    cases op with
    | get c => exact ih _ hrest (wildcardHolds_get _ _ _ h)
    | add b cats => exact ih _ hrest (wildcardHolds_addAppender _ _ _ _ h)
    | clear => exact absurd rfl hop

theorem appenders_getLogger (st : RegState) (c : Option String) :
    (getLogger st c).1.appenders = st.appenders := by
  cases hl : alookup st.loggers (getLoggerCat c) with
  | some lg => rw [getLogger_cached st c hl]
  | none => rw [getLogger_create st c hl]

theorem pending_addCat (st : RegState) (a : AppId) (c k : String) :
    (alookup (addAppenderCat st a c).appenders k).getD [] =
      (alookup st.appenders k).getD [] ++ (if c = k then [a] else []) := by
  have happ : (addAppenderCat st a c).appenders =
      aupdate st.appenders c ((alookup st.appenders c).getD [] ++ [a]) := by
    by_cases hc : c = ALL_CATEGORIES
    · subst hc
      rw [addAppenderCat_all]
    · cases hl : alookup st.loggers c with
      | some lg => rw [addAppenderCat_ne_some st a c lg hc hl]
      | none => rw [addAppenderCat_ne_none st a c hc hl]
  rw [happ]
  by_cases hck : c = k
  · subst hck
    rw [alookup_aupdate_self]
    simp
  · rw [alookup_aupdate_ne _ _ _ _ (Ne.symm hck)]
    simp [hck]

theorem pending_addAppender (st : RegState) (a : AppId) (cats : Option (List String))
    (k : String) :
    (alookup (addAppender st a cats).appenders k).getD [] =
      (alookup st.appenders k).getD [] ++
        (((cats.getD [ALL_CATEGORIES]).filter (fun x => x = k)).map (fun _ => a)) := by
  unfold addAppender
  generalize cats.getD [ALL_CATEGORIES] = l
  induction l generalizing st with
  | nil => simp
  | cons c cs ih =>
    simp only [List.foldl_cons, List.filter_cons]
    rw [ih, pending_addCat]
    by_cases hck : c = k
    · simp [hck, List.append_assoc]
    · simp [hck]

theorem addsFor_cons (k : String) (op : RegOp) (rest : List RegOp) :
    addsFor k (op :: rest) =
      (match op with
       | .add a cats => ((cats.getD [ALL_CATEGORIES]).filter (fun x => x = k)).map (fun _ => a)
       | _ => []) ++ addsFor k rest := by
  simp [addsFor]

theorem pending_runOps (ops : List RegOp) (st : RegState) (k : String)
    (hnc : NoClear ops) :
    (alookup (runOps st ops).appenders k).getD [] =
      (alookup st.appenders k).getD [] ++ addsFor k ops := by
  induction ops generalizing st with
  | nil => simp [runOps, addsFor]
  | cons op rest ih =>
    have hop : op ≠ RegOp.clear := hnc op (List.mem_cons_self _ _)
    have hrest : NoClear rest := fun o ho => hnc o (List.mem_cons_of_mem _ ho)
    rw [addsFor_cons]
    cases op with
    | get c =>
      have : runOps st (RegOp.get c :: rest) = runOps (getLogger st c).1 rest := rfl
      rw [this, ih _ hrest]
      have := appenders_getLogger st c
      simp [this]
    | add b cats =>
      have : runOps st (RegOp.add b cats :: rest) = runOps (addAppender st b cats) rest := rfl
      rw [this, ih _ hrest, pending_addAppender, List.append_assoc]
    | clear => exact absurd rfl hop

/-! ## Logger-identity lemmas (for reference-equality claims) -/

/-- The ids of the loggers currently in the registry. -/
def loggerIdsList (st : RegState) : List Nat :=
  st.loggers.map (fun p => p.2.id)

/-- Well-formedness of the identity model: every allocated id is below the
allocation counter, and ids are pairwise distinct. -/
def IdsOk (st : RegState) : Prop :=
  (∀ i ∈ loggerIdsList st, i < st.nextId) ∧ (loggerIdsList st).Pairwise (· ≠ ·)

theorem ids_aupdate {m : List (String × Logger)} {k : String} {lg v : Logger}
    (h : alookup m k = some lg) (hid : v.id = lg.id) :
    (aupdate m k v).map (fun p => p.2.id) = m.map (fun p => p.2.id) := by
  induction m with
  | nil => simp [alookup] at h
  | cons p rest ih =>
    obtain ⟨k', v'⟩ := p
    by_cases hk : k' = k
    · subst hk
      simp only [alookup, if_pos rfl] at h
      obtain rfl : v' = lg := by injection h
      simp [aupdate, hid]
    · simp only [alookup, hk, if_false] at h
      simp [aupdate, hk, ih h]

theorem loggerIdsList_addAppenderCat (st : RegState) (a : AppId) (c : String) :
    loggerIdsList (addAppenderCat st a c) = loggerIdsList st := by
  by_cases hc : c = ALL_CATEGORIES
  · subst hc
    rw [addAppenderCat_all]
    simp [loggerIdsList, Function.comp, addListener]
  · cases hl : alookup st.loggers c with
    | some lg =>
      rw [addAppenderCat_ne_some st a c lg hc hl]
      exact ids_aupdate hl rfl
    | none =>
      rw [addAppenderCat_ne_none st a c hc hl]
      rfl

theorem nextId_addAppenderCat (st : RegState) (a : AppId) (c : String) :
    (addAppenderCat st a c).nextId = st.nextId := by
  by_cases hc : c = ALL_CATEGORIES
  · subst hc
    rw [addAppenderCat_all]
  · cases hl : alookup st.loggers c with
    | some lg => rw [addAppenderCat_ne_some st a c lg hc hl]
    | none => rw [addAppenderCat_ne_none st a c hc hl]

theorem IdsOk_addAppender (st : RegState) (a : AppId) (cats : Option (List String))
    (h : IdsOk st) : IdsOk (addAppender st a cats) := by
  unfold addAppender
  generalize cats.getD [ALL_CATEGORIES] = l
  induction l generalizing st with
  | nil => exact h
  | cons c cs ih =>
    refine ih _ ?_
    unfold IdsOk at h ⊢
    rw [loggerIdsList_addAppenderCat, nextId_addAppenderCat]
    exact h

theorem IdsOk_getLogger (st : RegState) (c : Option String)
    (h : IdsOk st) : IdsOk (getLogger st c).1 := by
  obtain ⟨hb, hpw⟩ := h
  cases hl : alookup st.loggers (getLoggerCat c) with
  | some lg => rw [getLogger_cached st c hl]; exact ⟨hb, hpw⟩
  | none =>
    rw [getLogger_create st c hl]
    constructor
    · intro i hi
      simp only [loggerIdsList, aupdate_of_alookup_none _ _ _ hl, List.map_append,
        List.mem_append] at hi
      rcases hi with hi | hi
      · exact Nat.lt_succ_of_lt (hb i hi)
      · simp only [List.map_cons, List.map_nil, List.mem_singleton] at hi
        subst hi
        exact Nat.lt_succ_self _
    · simp only [loggerIdsList, aupdate_of_alookup_none _ _ _ hl, List.map_append]
      rw [List.pairwise_append]
      refine ⟨hpw, by simp, ?_⟩
      intro i hi j hj
      simp only [List.map_cons, List.map_nil, List.mem_singleton] at hj
      subst hj
      exact Nat.ne_of_lt (hb i hi)

theorem IdsOk_clearAppenders (st : RegState) (h : IdsOk st) : IdsOk (clearAppenders st) := by
  unfold IdsOk loggerIdsList clearAppenders
  unfold IdsOk loggerIdsList at h
  simpa [Function.comp] using h

theorem IdsOk_runOps (ops : List RegOp) (st : RegState) (h : IdsOk st) :
    IdsOk (runOps st ops) := by
  induction ops generalizing st with
  | nil => exact h
  | cons op rest ih =>
    cases op with
    | get c => exact ih _ (IdsOk_getLogger st c h)
    | add a cats => exact ih _ (IdsOk_addAppender st a cats h)
    | clear => exact ih _ (IdsOk_clearAppenders st h)

theorem IdsOk_initState : IdsOk initState := by
  constructor <;> simp [loggerIdsList, initState]

theorem IdsOk_of_reachable {st : RegState} (h : Reachable st) : IdsOk st := by
  obtain ⟨ops, rfl⟩ := h
  exact IdsOk_runOps ops initState IdsOk_initState

theorem Reachable_runOp {st : RegState} (h : Reachable st) (op : RegOp) :
    Reachable (runOp st op) := by
  obtain ⟨ops, rfl⟩ := h
  refine ⟨ops ++ [op], ?_⟩
  simp [runOps]

theorem alookup_id_ne {m : List (String × Logger)}
    (hpw : (m.map (fun p => p.2.id)).Pairwise (· ≠ ·))
    {c c' : String} {lg lg' : Logger}
    (hc : alookup m c = some lg) (hc' : alookup m c' = some lg') (hne : c ≠ c') :
    lg.id ≠ lg'.id := by
  induction m with
  | nil => simp [alookup] at hc
  | cons p rest ih =>
    obtain ⟨k, v⟩ := p
    simp only [List.map_cons, List.pairwise_cons] at hpw
    obtain ⟨hhead, htail⟩ := hpw
    simp only [alookup] at hc hc'
    by_cases hk : k = c
    · rw [if_pos hk] at hc
      obtain rfl : v = lg := by injection hc
      have hk' : ¬ k = c' := fun h => hne (hk ▸ h)
      rw [if_neg hk'] at hc'
      have hmem : (c', lg') ∈ rest := mem_of_alookup_eq_some _ _ _ hc'
      exact hhead _ (List.mem_map.2 ⟨(c', lg'), hmem, rfl⟩)
    · rw [if_neg hk] at hc
      by_cases hk' : k = c'
      · rw [if_pos hk'] at hc'
        obtain rfl : v = lg' := by injection hc'
        have hmem : (c, lg) ∈ rest := mem_of_alookup_eq_some _ _ _ hc
        exact (hhead _ (List.mem_map.2 ⟨(c, lg), hmem, rfl⟩)).symm
      · rw [if_neg hk'] at hc'
        exact ih htail hc hc'

/-! ## Severity-method and cleared-state lemmas -/

theorem severity_level_trace : Severity.level .trace = some levels.TRACE := rfl

theorem severity_level_debug : Severity.level .debug = some levels.DEBUG := rfl

theorem severity_level_info : Severity.level .info = some levels.INFO := rfl

theorem severity_level_warn : Severity.level .warn = some levels.WARN := rfl

theorem severity_level_error : Severity.level .error = some levels.ERROR := rfl

theorem severity_level_fatal : Severity.level .fatal = some levels.FATAL := rfl

theorem severityCall_of_listeners_nil {lg : Logger} (hl : lg.listeners = [])
    (s : Severity) (msg : String) (exc : Option JsException) (now : JsDate) :
    lg.severityCall s msg exc now = Except.ok [] := by
  cases s <;>
    simp [Logger.severityCall, severity_level_trace, severity_level_debug,
      severity_level_info, severity_level_warn, severity_level_error,
      severity_level_fatal, Logger.logCall, hl]

/-- The post-`clearAppenders` property: no pending lists, no bound appenders. -/
def ClearedBindings (st : RegState) : Prop :=
  st.appenders = [] ∧ ∀ p ∈ st.loggers, p.2.listeners = []

theorem ClearedBindings_clear (st : RegState) : ClearedBindings (clearAppenders st) := by
  refine ⟨rfl, ?_⟩
  intro p hp
  simp only [clearAppenders, List.mem_map] at hp
  obtain ⟨q, _, rfl⟩ := hp
  rfl

theorem ClearedBindings_get (st : RegState) (c : Option String)
    (h : ClearedBindings st) : ClearedBindings (getLogger st c).1 := by
  obtain ⟨h1, h2⟩ := h
  cases hl : alookup st.loggers (getLoggerCat c) with
  | some lg => rw [getLogger_cached st c hl]; exact ⟨h1, h2⟩
  | none =>
    rw [getLogger_create st c hl]
    refine ⟨h1, ?_⟩
    intro p hp
    simp only at hp
    rw [aupdate_of_alookup_none _ _ _ hl] at hp
    rcases List.mem_append.1 hp with hp | hp
    · exact h2 p hp
    · simp only [List.mem_singleton] at hp
      subst hp
      simp [newLoggerListeners, h1, alookup]

theorem ClearedBindings_runOps (ops : List RegOp) (st : RegState)
    (hna : NoAdd ops) (h : ClearedBindings st) : ClearedBindings (runOps st ops) := by
  induction ops generalizing st with
  | nil => exact h
  | cons op rest ih =>
    have hrest : NoAdd rest := fun o ho => hna o (List.mem_cons_of_mem _ ho)
    cases op with
    | get c => exact ih _ hrest (ClearedBindings_get st c h)
    | add a cats =>
      have := hna _ (List.mem_cons_self _ _)
      simp [RegOp.isAdd] at this
    | clear => exact ih _ hrest (ClearedBindings_clear st)

theorem alookup_after_getLogger (st : RegState) (c : Option String) :
    alookup (getLogger st c).1.loggers (getLoggerCat c) = some (getLogger st c).2 := by
  cases hl : alookup st.loggers (getLoggerCat c) with
  | some lg => rw [getLogger_cached st c hl]; exact hl
  | none =>
    rw [getLogger_create st c hl]
    exact alookup_aupdate_self _ _ _

theorem lookupLevel_eq_none_of_not_mem {s : String} (h : s ∉ levelNames) :
    lookupLevel s = none := by
  simp only [levelNames, List.mem_cons, not_or, List.not_mem_nil] at h
  obtain ⟨h1, h2, h3, h4, h5, h6, h7, h8, -⟩ := h
  simp [lookupLevel, h1, h2, h3, h4, h5, h6, h7, h8]

/-! ## Sample concrete inputs -/

def sampleDate : JsDate := ⟨1, 0, 2010, 0, 0, 0, 0, 0, "00:00:00"⟩

def sampleLogger : Logger := ⟨0, "x", levels.TRACE, []⟩

def sampleEvent : LoggingEvent :=
  ⟨sampleDate, "cat", "msg", none, levels.INFO, sampleLogger⟩

/-! ## Claim theorems -/

/-- C1: the spec claims the layout returned by
`patternLayout("%-5p %c - %m%n")` maps every LoggingEvent with level INFO,
category `"db"`, message `"ok"` to exactly `"INFO  db - ok\n"`. The
template loop applied to that template does produce exactly that string for
every such event (first conjunct) — but the closure the source actually
returns never reads the compiled template: it scans `this.pattern`, which is
`undefined` at every call site, so invoking the returned layout on such an
event throws a TypeError instead of returning the string (second
conjunct). -/
theorem c1_pattern_reusable_formatter (d : JsDate) (exc : Option JsException) (lgr : Logger) :
    formatPattern "%-5p %c - %m%n"
        { startTime := d, categoryName := "db", message := "ok", exception := exc,
          level := levels.INFO, logger := lgr } = "INFO  db - ok\n" ∧
    patternLayout (some "%-5p %c - %m%n") none
        { startTime := d, categoryName := "db", message := "ok", exception := exc,
          level := levels.INFO, logger := lgr } =
      Except.error "TypeError: Cannot call method substr of undefined" :=
  ⟨rfl, rfl⟩

/-- C5: the spec claims `%c` with integer precision keeps the last
`precision` dot-separated category segments (`"%c{2}"` on `"a.b.c"` gives
`"b.c"`) and the full name when the argument is absent or the precision is
at least the segment count. The template loop does all of that (first four
conjuncts) — but the layout function the source returns throws a TypeError
on every invocation because it scans `this.pattern` instead of the compiled
template (last conjunct). -/
theorem c5_category_precision (d : JsDate) (exc : Option JsException) (lgr : Logger)
    (msg : String) :
    formatPattern "%c\x7b2\x7d"
        { startTime := d, categoryName := "a.b.c", message := msg, exception := exc,
          level := levels.INFO, logger := lgr } = "b.c" ∧
    formatPattern "%c\x7b2\x7d"
        { startTime := d, categoryName := "a", message := msg, exception := exc,
          level := levels.INFO, logger := lgr } = "a" ∧
    formatPattern "%c"
        { startTime := d, categoryName := "a.b.c", message := msg, exception := exc,
          level := levels.INFO, logger := lgr } = "a.b.c" ∧
    formatPattern "%c\x7b5\x7d"
        { startTime := d, categoryName := "a.b.c", message := msg, exception := exc,
          level := levels.INFO, logger := lgr } = "a.b.c" ∧
    patternLayout (some "%c\x7b2\x7d") none
        { startTime := d, categoryName := "a.b.c", message := msg, exception := exc,
          level := levels.INFO, logger := lgr } =
      Except.error "TypeError: Cannot call method substr of undefined" :=
  ⟨rfl, rfl, rfl, rfl, rfl⟩

/-- C6 counterexample: the claim says a `%`-directive with an unrecognized
conversion character renders as its literal matched text (`"%z"` would have
to render as `"%z"`) and that no template ever raises an error. In fact the
template loop renders `"%z"` as `"z"` — the regex never matches an
unrecognized conversion character, so the scan skips the `%` without
emitting it — and the layout function `patternLayout` returns raises a
TypeError on every invocation. -/
theorem c6_counterexample :
    formatPattern "%z" sampleEvent = "z" ∧ ("z" : String) ≠ "%z" ∧
    patternLayout (some "%z") none sampleEvent =
      Except.error "TypeError: Cannot call method substr of undefined" :=
  ⟨rfl, by decide, rfl⟩

theorem tryAlt1_percent_single (x : Char) (hx : x ∉ recognizedConvChars) :
    tryAlt1 ['%', x] = none := by
  by_cases hdash : x = '-'
  · subst hdash; rfl
  · by_cases hdig : x.isDigit
    · simp [tryAlt1, parsePadding, parseTruncation, hdash, hdig, List.takeWhile_cons,
        List.dropWhile_cons]
    · by_cases hdot : x = '.'
      · subst hdot; rfl
      · simp [tryAlt1, parsePadding, parseTruncation, hdash, hdig, hdot,
          List.takeWhile_cons, List.dropWhile_cons, hx]

/-- The shape of the regex's padding group `(-?[0-9]+)?` when it is present
or absent: empty, a non-empty digit run, or `-` followed by one. -/
def ValidPadding (pad : List Char) : Prop :=
  pad = [] ∨ ∃ ds, ds ≠ [] ∧ ds.all Char.isDigit = true ∧ (pad = ds ∨ pad = '-' :: ds)

/-- The shape of the regex's truncation group `(\.?[0-9]+)?` as it can occur
after the padding group: empty, or `.` followed by a non-empty digit run. -/
def ValidTruncation (trunc : List Char) : Prop :=
  trunc = [] ∨ ∃ ds, ds ≠ [] ∧ ds.all Char.isDigit = true ∧ trunc = '.' :: ds

theorem takeWhile_digit_prefix (ds : List Char) (y : Char) (t : List Char)
    (hds : ∀ c ∈ ds, c.isDigit = true) (hy : y.isDigit = false) :
    (ds ++ y :: t).takeWhile Char.isDigit = ds ∧
    (ds ++ y :: t).dropWhile Char.isDigit = y :: t := by
  induction ds with
  | nil => simp [List.takeWhile_cons, List.dropWhile_cons, hy]
  | cons d ds ih =>
    have hd : d.isDigit = true := hds d (List.mem_cons_self _ _)
    have hrest : ∀ c ∈ ds, c.isDigit = true := fun c hc => hds c (List.mem_cons_of_mem _ hc)
    obtain ⟨ih1, ih2⟩ := ih hrest
    simp [List.takeWhile_cons, List.dropWhile_cons, hd, ih1, ih2]

theorem parsePadding_valid (pad : List Char) (y : Char) (t : List Char)
    (hp : ValidPadding pad) (hy1 : y.isDigit = false) (hy2 : y ≠ '-') :
    parsePadding (pad ++ y :: t) = ((if pad.isEmpty then none else some pad), y :: t) := by
  rcases hp with rfl | ⟨ds, hne, hall, hcase⟩
  · simp [parsePadding, hy2, List.takeWhile_cons, hy1]
  · have hall' : ∀ c ∈ ds, c.isDigit = true := by
      simpa [List.all_eq_true] using hall
    obtain ⟨d, ds', rfl⟩ : ∃ d ds', ds = d :: ds' := by
      cases ds with
      | nil => exact absurd rfl hne
      | cons d ds' => exact ⟨d, ds', rfl⟩
    have hd : d.isDigit = true := hall' d (List.mem_cons_self _ _)
    have hdd : ¬ d = '-' := by
      intro h
      rw [h] at hd
      exact absurd hd (by decide)
    obtain ⟨h1, h2⟩ := takeWhile_digit_prefix (d :: ds') y t hall' hy1
    rcases hcase with rfl | rfl
    · simp only [List.cons_append] at h1 h2 ⊢
      simp [parsePadding, hdd, h1, h2]
    · simp only [List.cons_append] at h1 h2 ⊢
      simp [parsePadding, h1, h2]

theorem parseTruncation_valid (trunc : List Char) (y : Char) (t : List Char)
    (ht : ValidTruncation trunc) (hy1 : y.isDigit = false) (hy2 : y ≠ '.') :
    parseTruncation (trunc ++ y :: t) = ((if trunc.isEmpty then none else some trunc), y :: t) := by
  rcases ht with rfl | ⟨ds, hne, hall, rfl⟩
  · simp [parseTruncation, hy2, List.takeWhile_cons, hy1]
  · have hall' : ∀ c ∈ ds, c.isDigit = true := by
      simpa [List.all_eq_true] using hall
    obtain ⟨h1, h2⟩ := takeWhile_digit_prefix ds y t hall' hy1
    simp only [List.cons_append] at h1 h2 ⊢
    simp [parseTruncation, h1, h2, hne]

theorem tryAlt1_unrecognized (pad trunc : List Char) (x : Char) (suffix : List Char)
    (hp : ValidPadding pad) (ht : ValidTruncation trunc) (hx : x ∉ recognizedConvChars)
    (hxd : x.isDigit = false) (hxdot : x ≠ '.') (hxdash : x ≠ '-') :
    tryAlt1 ('%' :: (pad ++ (trunc ++ x :: suffix))) = none := by
  have hrest : parsePadding (pad ++ (trunc ++ x :: suffix)) =
      ((if pad.isEmpty then none else some pad), trunc ++ x :: suffix) := by
    rcases ht with rfl | ⟨ds, hne, hall, rfl⟩
    · simpa using parsePadding_valid pad x suffix hp hxd hxdash
    · have h0 := parsePadding_valid pad '.' (ds ++ x :: suffix) hp (by decide) (by decide)
      simpa [List.cons_append, List.append_assoc] using h0
  have htr : parseTruncation (trunc ++ x :: suffix) =
      ((if trunc.isEmpty then none else some trunc), x :: suffix) :=
    parseTruncation_valid trunc x suffix ht hxd hxdot
  simp [tryAlt1, hrest, htr, hx]

theorem runPatternF_skip_percent (e : LoggingEvent) (fuel : Nat) (cs : List Char)
    (h : tryAlt1 ('%' :: cs) = none) :
    runPatternF e (fuel + 1) ('%' :: cs) = runPatternF e fuel cs := by
  have h2 : tryAlt2 ('%' :: cs) = none := by
    simp [tryAlt2, List.takeWhile_cons]
  simp [runPatternF, h, h2]

/-- C6 amended: a `%`-directive whose conversion character is not one of
`c`, `d`, `m`, `n`, `p`, `r`, `%` is never matched by the scanner regex
(first conjunct, for any padding/truncation modifiers and any following
text); at such a position the scan skips exactly the `%` without emitting it
and continues with the very next character (second conjunct), so the
modifier characters and the unrecognized conversion character are rendered
as ordinary literal text — `"%" ++ x` renders as just `x` (third conjunct)
and `"%-5z"` renders as `"-5z"` (fourth conjunct); the literal matched
directive text including the `%` is never emitted. The template loop itself
raises no error for any template, but the layout function returned by
`patternLayout` raises a TypeError on every invocation, because its
`searchString` is the undefined `this.pattern` rather than the compiled
template (fifth conjunct). -/
theorem c6_amended_unmatched_directive :
    (∀ (pad trunc : List Char) (x : Char) (suffix : List Char),
      ValidPadding pad → ValidTruncation trunc → x ∉ recognizedConvChars →
      x.isDigit = false → x ≠ '.' → x ≠ '-' →
      tryAlt1 ('%' :: (pad ++ (trunc ++ x :: suffix))) = none) ∧
    (∀ (e : LoggingEvent) (fuel : Nat) (cs : List Char), tryAlt1 ('%' :: cs) = none →
      runPatternF e (fuel + 1) ('%' :: cs) = runPatternF e fuel cs) ∧
    (∀ (x : Char), x ∉ recognizedConvChars →
      ∀ (e : LoggingEvent), formatPattern (String.mk ['%', x]) e = String.mk [x]) ∧
    (∀ (d : JsDate) (exc : Option JsException) (lgr : Logger) (cat msg : String) (lvl : Level),
      formatPattern "%-5z"
        { startTime := d, categoryName := cat, message := msg, exception := exc,
          level := lvl, logger := lgr } = "-5z") ∧
    (∀ (p : String) (e : LoggingEvent),
      patternLayout (some p) none e =
        Except.error "TypeError: Cannot call method substr of undefined") := by
  refine ⟨tryAlt1_unrecognized, runPatternF_skip_percent, ?_,
    fun d exc lgr cat msg lvl => rfl, fun p e => rfl⟩
  intro x hx e
  have hpc : x ≠ '%' := fun h => hx (by simp [recognizedConvChars, h])
  have h1 := tryAlt1_percent_single x hx
  have h2 : tryAlt1 [x] = none := by simp [tryAlt1, hpc]
  have h3 : tryAlt2 [x] = some (String.mk [x], []) := by
    simp [tryAlt2, List.takeWhile_cons, List.dropWhile_cons, hpc]
  show runPatternF e 2 ['%', x] = String.mk [x]
  simp [runPatternF, h1, h2, h3, show tryAlt2 ['%', x] = none from rfl]

theorem c6_amended_witness :
    (ValidPadding ['-', '5'] ∧ ValidTruncation [] ∧ 'z' ∉ recognizedConvChars ∧
      tryAlt1 ('%' :: (['-', '5'] ++ ([] ++ 'z' :: []))) = none) ∧
    formatPattern "%-5z" sampleEvent = "-5z" ∧
    ('z' ∉ recognizedConvChars ∧
      formatPattern (String.mk ['%', 'z']) sampleEvent = String.mk ['z']) :=
  ⟨⟨Or.inr ⟨['5'], by decide, by decide, Or.inr rfl⟩, Or.inl rfl, by decide,
    c6_amended_unmatched_directive.1 ['-', '5'] [] 'z' []
      (Or.inr ⟨['5'], by decide, by decide, Or.inr rfl⟩) (Or.inl rfl)
      (by decide) (by decide) (by decide) (by decide)⟩,
   c6_amended_unmatched_directive.2.2.2.1 sampleDate none sampleLogger "cat" "msg" levels.INFO,
   by decide,
   c6_amended_unmatched_directive.2.2.1 'z' (by decide) sampleEvent⟩

/-- C2: the registry binding-order invariant. (i) An appender added under
the wildcard category is bound to every logger — those that existed at the
`addAppender` call and those created by any later (clear-free) run of
operations. (ii) When `getLogger` first creates a category's logger, its
bound list is exactly the appenders pending under that category followed by
those pending under the wildcard. (iii) Pending lists record exactly the
appenders added for that category, in call order — so with (ii), for a run
from the initial state, a freshly created logger's binding order is
`[own-category appenders in add order, then wildcard appenders in add
order]`, independent of how the `addAppender` calls were interleaved. -/
theorem c2_registry_binding_order (a : AppId) (st : RegState) (ops : List RegOp)
    (hnc : NoClear ops) :
    (∀ p ∈ (runOps (addAppender st a none) ops).loggers, a ∈ p.2.listeners) ∧
    (∀ c : Option String, alookup st.loggers (getLoggerCat c) = none →
      ((getLogger st c).2).listeners =
        (alookup st.appenders (getLoggerCat c)).getD [] ++
        (alookup st.appenders ALL_CATEGORIES).getD []) ∧
    (∀ k : String, (alookup (runOps st ops).appenders k).getD [] =
      (alookup st.appenders k).getD [] ++ addsFor k ops) ∧
    (∀ c : Option String,
      alookup (runOps initState ops).loggers (getLoggerCat c) = none →
      ((getLogger (runOps initState ops) c).2).listeners =
        addsFor (getLoggerCat c) ops ++ addsFor ALL_CATEGORIES ops) := by
  refine ⟨?_, ?_, ?_, ?_⟩
  · have hbase : wildcardHolds a (addAppender st a none) := wildcardHolds_addAll st a
    exact (wildcardHolds_runOps a ops _ hnc hbase).2
  · intro c h
    rw [getLogger_create st c h]
    rfl
  · intro k
    exact pending_runOps ops st k hnc
  · intro c h
    rw [getLogger_create (runOps initState ops) c h]
    show newLoggerListeners (runOps initState ops) (getLoggerCat c) = _
    unfold newLoggerListeners
    rw [pending_runOps ops initState _ hnc, pending_runOps ops initState _ hnc]
    simp [initState, alookup]

theorem c2_registry_binding_order_witness :
    NoClear [RegOp.add 1 (some ["db"]), RegOp.get (some "db")] ∧
    (∀ p ∈ (runOps (addAppender initState 0 none)
        [RegOp.add 1 (some ["db"]), RegOp.get (some "db")]).loggers,
      0 ∈ p.2.listeners) ∧
    (∀ c : Option String,
      alookup (runOps initState [RegOp.add 1 (some ["db"]), RegOp.get (some "db")]).loggers
          (getLoggerCat c) = none →
      ((getLogger (runOps initState [RegOp.add 1 (some ["db"]), RegOp.get (some "db")]) c).2).listeners =
        addsFor (getLoggerCat c) [RegOp.add 1 (some ["db"]), RegOp.get (some "db")] ++
        addsFor ALL_CATEGORIES [RegOp.add 1 (some ["db"]), RegOp.get (some "db")]) :=
  ⟨by decide,
   (c2_registry_binding_order 0 initState _ (by decide)).1,
   (c2_registry_binding_order 0 initState _ (by decide)).2.2.2⟩

/-- C3: the severity gate. For any logger and severity method whose level is
`L`: if `threshold.isLessThanOrEqualTo(L)` fails the call yields no appender
invocation (and in the source the gate precedes event construction, so no
event is built); otherwise one event is constructed and every bound appender
receives exactly that event, once, in binding order. Concretely, a logger
with threshold INFO: `.debug` invokes nothing, `.info` and `.warn` invoke
each bound appender exactly once. -/
theorem c3_severity_gate (lg : Logger) (s : Severity) (msg : String)
    (exc : Option JsException) (now : JsDate) (L : Level) (hL : s.level = some L) :
    (lg.level.isLessThanOrEqualTo L = false →
      lg.severityCall s msg exc now = Except.ok []) ∧
    (lg.level.isLessThanOrEqualTo L = true →
      lg.severityCall s msg exc now = Except.ok (lg.listeners.map (fun a =>
        (a, { startTime := now, categoryName := lg.category, message := msg,
              exception := exc, level := L, logger := lg })))) ∧
    (lg.level = levels.INFO →
      lg.severityCall .debug msg exc now = Except.ok [] ∧
      lg.severityCall .info msg exc now = Except.ok (lg.listeners.map (fun a =>
        (a, { startTime := now, categoryName := lg.category, message := msg,
              exception := exc, level := levels.INFO, logger := lg }))) ∧
      lg.severityCall .warn msg exc now = Except.ok (lg.listeners.map (fun a =>
        (a, { startTime := now, categoryName := lg.category, message := msg,
              exception := exc, level := levels.WARN, logger := lg })))) := by
  refine ⟨?_, ?_, ?_⟩
  · intro h
    simp [Logger.severityCall, hL, h]
  · intro h
    simp [Logger.severityCall, hL, h, Logger.logCall]
  · intro h
    refine ⟨?_, ?_, ?_⟩
    · simp [Logger.severityCall, severity_level_debug, h,
        show levels.INFO.isLessThanOrEqualTo levels.DEBUG = false from by decide]
    · simp [Logger.severityCall, severity_level_info, h, Logger.logCall,
        show levels.INFO.isLessThanOrEqualTo levels.INFO = true from by decide]
    · simp [Logger.severityCall, severity_level_warn, h, Logger.logCall,
        show levels.INFO.isLessThanOrEqualTo levels.WARN = true from by decide]

theorem c3_severity_gate_witness :
    Severity.level .warn = some levels.WARN ∧
    (Logger.mk 0 "db" levels.INFO [3, 4]).severityCall .warn "m" none sampleDate =
      Except.ok ((Logger.mk 0 "db" levels.INFO [3, 4]).listeners.map (fun a =>
        (a, { startTime := sampleDate, categoryName := "db", message := "m",
              exception := none, level := levels.WARN,
              logger := Logger.mk 0 "db" levels.INFO [3, 4] }))) :=
  ⟨rfl,
   (c3_severity_gate (Logger.mk 0 "db" levels.INFO [3, 4]) .warn "m" none sampleDate
      levels.WARN rfl).2.1 (by decide)⟩

/-- C4: `getLogger` is idempotent per category — calling it again with the
same category leaves the registry unchanged and returns the identical
(same-allocation) logger; two different category strings yield loggers with
distinct identities; and a missing/non-string argument resolves to exactly
the reserved default category's call. Stated over any state reachable from
the initial registry state. -/
theorem c4_getLogger_identity (st : RegState) (hst : Reachable st) :
    (∀ c : Option String,
      getLogger (getLogger st c).1 c = ((getLogger st c).1, (getLogger st c).2)) ∧
    (∀ c c' : String, c ≠ c' →
      ((getLogger st (some c)).2).id ≠
        ((getLogger (getLogger st (some c)).1 (some c')).2).id) ∧
    (getLogger st none = getLogger st (some DEFAULT_CATEGORY)) := by
  refine ⟨?_, ?_, rfl⟩
  · intro c
    exact getLogger_cached ((getLogger st c).1) c (alookup_after_getLogger st c)
  · intro c c' hne
    have hids1 : IdsOk (getLogger st (some c)).1 :=
      IdsOk_of_reachable (Reachable_runOp hst (RegOp.get (some c)))
    have hlook1 : alookup (getLogger st (some c)).1.loggers c =
        some (getLogger st (some c)).2 := alookup_after_getLogger st (some c)
    cases hl2 : alookup (getLogger st (some c)).1.loggers c' with
    | some lg2 =>
      rw [getLogger_cached ((getLogger st (some c)).1) (some c') hl2]
      exact alookup_id_ne hids1.2 hlook1 hl2 hne
    | none =>
      rw [getLogger_create ((getLogger st (some c)).1) (some c') hl2]
      have hmem : (c, (getLogger st (some c)).2) ∈ (getLogger st (some c)).1.loggers :=
        mem_of_alookup_eq_some _ _ _ hlook1
      have hin : ((getLogger st (some c)).2).id ∈ loggerIdsList (getLogger st (some c)).1 :=
        List.mem_map.2 ⟨(c, (getLogger st (some c)).2), hmem, rfl⟩
      exact Nat.ne_of_lt (hids1.1 _ hin)

theorem c4_getLogger_identity_witness :
    Reachable initState ∧
    (getLogger (getLogger initState (some "db")).1 (some "db") =
      ((getLogger initState (some "db")).1, (getLogger initState (some "db")).2)) ∧
    (((getLogger initState (some "a")).2).id ≠
      ((getLogger (getLogger initState (some "a")).1 (some "b")).2).id) ∧
    (getLogger initState none = getLogger initState (some DEFAULT_CATEGORY)) :=
  ⟨⟨[], rfl⟩,
   (c4_getLogger_identity initState ⟨[], rfl⟩).1 (some "db"),
   (c4_getLogger_identity initState ⟨[], rfl⟩).2.1 "a" "b" (by decide),
   (c4_getLogger_identity initState ⟨[], rfl⟩).2.2⟩

/-- C7: `clearAppenders` empties the pending-appender map and every
logger's bound-appender list while keeping the loggers themselves (same
key, identity, category and threshold); afterwards, every severity call on
any registry logger yields zero appender invocations, and this persists
under any further operations that add no appender. -/
theorem c7_clearAppenders_resets (st : RegState) :
    (clearAppenders st).appenders = [] ∧
    (clearAppenders st).loggers =
      st.loggers.map (fun p => (p.1, { p.2 with listeners := [] })) ∧
    (∀ p ∈ (clearAppenders st).loggers, ∀ (s : Severity) (msg : String)
        (exc : Option JsException) (now : JsDate),
      p.2.severityCall s msg exc now = Except.ok []) ∧
    (∀ ops : List RegOp, NoAdd ops →
      ∀ p ∈ (runOps (clearAppenders st) ops).loggers,
        ∀ (s : Severity) (msg : String) (exc : Option JsException) (now : JsDate),
          p.2.severityCall s msg exc now = Except.ok []) := by
  refine ⟨rfl, rfl, ?_, ?_⟩
  · intro p hp s msg exc now
    exact severityCall_of_listeners_nil ((ClearedBindings_clear st).2 p hp) s msg exc now
  · intro ops hna p hp s msg exc now
    exact severityCall_of_listeners_nil
      ((ClearedBindings_runOps ops _ hna (ClearedBindings_clear st)).2 p hp) s msg exc now

theorem c7_clearAppenders_resets_witness :
    NoAdd [RegOp.get (some "e")] ∧
    (∀ p ∈ (runOps (clearAppenders (getLogger (addAppender initState 5 none) (some "db")).1)
        [RegOp.get (some "e")]).loggers,
      ∀ (s : Severity) (msg : String) (exc : Option JsException) (now : JsDate),
        p.2.severityCall s msg exc now = Except.ok []) :=
  ⟨by decide,
   (c7_clearAppenders_resets (getLogger (addAppender initState 5 none) (some "db")).1).2.2.2
     [RegOp.get (some "e")] (by decide)⟩

/-- C8: `Level.toLevel` resolves names case-insensitively (the result
depends only on the uppercased name, a recognized name returns the level
carrying exactly that uppercase display name, an unrecognized or absent name
returns the supplied default); `isLessThanOrEqualTo`/`isGreaterThanOrEqualTo`
(the spec's `isAtMost`/`isAtLeast`) are exactly rank comparison; and over the
fixed eight-level set, lower rank is `isAtMost` the higher but never
conversely, ALL is `isAtMost` everything, and OFF is `isAtLeast`
everything. -/
theorem rank_bounds : ∀ L ∈ levelsList, NumberMinValue ≤ L.level ∧ L.level ≤ NumberMaxValue := by
  have hmin1 : NumberMinValue ≤ 1 := by
    unfold NumberMinValue
    rw [div_le_one (by positivity)]
    exact one_le_pow₀ (by norm_num)
  have hmax : (50000 : ℚ) ≤ NumberMaxValue := by
    unfold NumberMaxValue
    have h16 : (2 : ℚ) ^ 16 ≤ 2 ^ 971 := pow_le_pow_right₀ (by norm_num) (by norm_num)
    nlinarith [h16]
  intro L hL
  fin_cases hL <;> refine ⟨?_, ?_⟩ <;>
    simp only [levels.ALL, levels.TRACE, levels.DEBUG, levels.INFO, levels.WARN,
      levels.ERROR, levels.FATAL, levels.OFF] <;>
    linarith

theorem c8_level_operations :
    (∀ (s : String) (d : Option Level), jsToUpperCase s ∈ levelNames →
      ∃ L, Level.toLevel (.str s) d = some L ∧ L.levelStr = jsToUpperCase s) ∧
    (∀ (s : String) (d : Option Level), jsToUpperCase s ∉ levelNames →
      Level.toLevel (.str s) d = d) ∧
    (∀ d : Option Level, Level.toLevel .undefined d = d ∧ Level.toLevel .null d = d) ∧
    (∀ (s₁ s₂ : String) (d : Option Level), jsToUpperCase s₁ = jsToUpperCase s₂ →
      Level.toLevel (.str s₁) d = Level.toLevel (.str s₂) d) ∧
    (∀ a b : Level, (a.isLessThanOrEqualTo b = true ↔ a.level ≤ b.level) ∧
      (a.isGreaterThanOrEqualTo b = true ↔ b.level ≤ a.level)) ∧
    (∀ L1 ∈ levelsList, ∀ L2 ∈ levelsList, L1.level < L2.level →
      L1.isLessThanOrEqualTo L2 = true ∧ L2.isLessThanOrEqualTo L1 = false) ∧
    (∀ L ∈ levelsList, levels.ALL.isLessThanOrEqualTo L = true ∧
      levels.OFF.isGreaterThanOrEqualTo L = true) := by
  refine ⟨?_, ?_, fun d => ⟨rfl, rfl⟩, ?_, ?_, ?_, ?_⟩
  · intro s d h
    simp only [levelNames, List.mem_cons, List.not_mem_nil, or_false] at h
    rcases h with h|h|h|h|h|h|h|h
    · exact ⟨levels.ALL, by simp [Level.toLevel, lookupLevel, h], by rw [h]; rfl⟩
    · exact ⟨levels.TRACE, by simp [Level.toLevel, lookupLevel, h], by rw [h]; rfl⟩
    · exact ⟨levels.DEBUG, by simp [Level.toLevel, lookupLevel, h], by rw [h]; rfl⟩
    · exact ⟨levels.INFO, by simp [Level.toLevel, lookupLevel, h], by rw [h]; rfl⟩
    · exact ⟨levels.WARN, by simp [Level.toLevel, lookupLevel, h], by rw [h]; rfl⟩
    · exact ⟨levels.ERROR, by simp [Level.toLevel, lookupLevel, h], by rw [h]; rfl⟩
    · exact ⟨levels.FATAL, by simp [Level.toLevel, lookupLevel, h], by rw [h]; rfl⟩
    · exact ⟨levels.OFF, by simp [Level.toLevel, lookupLevel, h], by rw [h]; rfl⟩
  · intro s d h
    have h0 := lookupLevel_eq_none_of_not_mem h
    simp [Level.toLevel, h0]
  · intro s₁ s₂ d h
    simp only [Level.toLevel, h]
  · intro a b
    constructor <;>
      simp [Level.isLessThanOrEqualTo, Level.isGreaterThanOrEqualTo, ge_iff_le]
  · intro L1 _ L2 _ h
    refine ⟨?_, ?_⟩
    · simp only [Level.isLessThanOrEqualTo, decide_eq_true_eq]
      exact le_of_lt h
    · simp only [Level.isLessThanOrEqualTo, decide_eq_false_iff_not]
      exact not_le.2 h
  · intro L hL
    obtain ⟨hlo, hhi⟩ := rank_bounds L hL
    refine ⟨?_, ?_⟩
    · simp only [Level.isLessThanOrEqualTo, decide_eq_true_eq]
      exact hlo
    · simp only [Level.isGreaterThanOrEqualTo, ge_iff_le, decide_eq_true_eq]
      exact hhi

theorem trace_mem_levelsList : levels.TRACE ∈ levelsList := by
  unfold levelsList
  exact List.mem_cons_of_mem _ (List.mem_cons_self _ _)

theorem warn_mem_levelsList : levels.WARN ∈ levelsList := by
  unfold levelsList
  exact List.mem_cons_of_mem _ (List.mem_cons_of_mem _ (List.mem_cons_of_mem _
    (List.mem_cons_of_mem _ (List.mem_cons_self _ _))))

theorem error_mem_levelsList : levels.ERROR ∈ levelsList := by
  unfold levelsList
  exact List.mem_cons_of_mem _ (List.mem_cons_of_mem _ (List.mem_cons_of_mem _
    (List.mem_cons_of_mem _ (List.mem_cons_of_mem _ (List.mem_cons_self _ _)))))

theorem c8_level_operations_witness :
    (jsToUpperCase "info" ∈ levelNames ∧
      ∃ L, Level.toLevel (.str "info") none = some L ∧
        L.levelStr = jsToUpperCase "info") ∧
    (jsToUpperCase "verbose" ∉ levelNames ∧
      Level.toLevel (.str "verbose") (some levels.TRACE) = some levels.TRACE) ∧
    (levels.TRACE ∈ levelsList ∧ levels.ERROR ∈ levelsList ∧
      levels.TRACE.level < levels.ERROR.level ∧
      levels.TRACE.isLessThanOrEqualTo levels.ERROR = true ∧
      levels.ERROR.isLessThanOrEqualTo levels.TRACE = false) :=
  ⟨⟨by decide, c8_level_operations.1 "info" none (by decide)⟩,
   ⟨by decide, c8_level_operations.2.1 "verbose" (some levels.TRACE) (by decide)⟩,
   trace_mem_levelsList, error_mem_levelsList, by decide,
   (c8_level_operations.2.2.2.2.2.1 levels.TRACE trace_mem_levelsList levels.ERROR
     error_mem_levelsList (by decide)).1,
   (c8_level_operations.2.2.2.2.2.1 levels.TRACE trace_mem_levelsList levels.ERROR
     error_mem_levelsList (by decide)).2⟩

/-- C9: `Logger.setLevel` called with an actual `Level` object (any of the
eight exported levels) sets the threshold to TRACE regardless of the
object's rank, because `Level.toLevel` only recognizes strings (and `null`)
and treats every other value as unrecognized, falling back to the supplied
default `levels.TRACE`. -/
theorem c9_setLevel_level_object (lg : Logger) (L : Level) (hL : L ∈ levelsList) :
    (lg.setLevel (.levelObj L)).level = levels.TRACE := rfl

theorem c9_setLevel_level_object_witness :
    levels.WARN ∈ levelsList ∧
    (sampleLogger.setLevel (.levelObj levels.WARN)).level = levels.TRACE :=
  ⟨warn_mem_levelsList, c9_setLevel_level_object sampleLogger levels.WARN warn_mem_levelsList⟩

/-- C10: a `logLevelFilter` built from an unrecognized level name (the
threshold lookup yields no level, since no default is supplied) throws a
TypeError on every event it receives — it neither forwards nor silently
drops; when the name is recognized, the event is forwarded to the wrapped
appender iff its level is at least the threshold. -/
theorem c10_filter_unrecognized_level (name : String) (app : AppId) (e : LoggingEvent) :
    (jsToUpperCase name ∉ levelNames →
      logLevelFilter (.str name) app e =
        Except.error "TypeError: Cannot read property level of undefined") ∧
    (∀ lv, Level.toLevel (.str name) none = some lv →
      logLevelFilter (.str name) app e =
        Except.ok (if e.level.isGreaterThanOrEqualTo lv then [(app, e)] else [])) := by
  refine ⟨?_, ?_⟩
  · intro h
    have h0 := lookupLevel_eq_none_of_not_mem h
    simp [logLevelFilter, Level.toLevel, h0]
  · intro lv hlv
    simp [logLevelFilter, hlv]

theorem c10_filter_unrecognized_level_witness :
    (jsToUpperCase "VERBOSE" ∉ levelNames ∧
      logLevelFilter (.str "VERBOSE") 3 sampleEvent =
        Except.error "TypeError: Cannot read property level of undefined") ∧
    (Level.toLevel (.str "warn") none = some levels.WARN ∧
      logLevelFilter (.str "warn") 3 sampleEvent =
        Except.ok (if sampleEvent.level.isGreaterThanOrEqualTo levels.WARN
          then [(3, sampleEvent)] else [])) :=
  ⟨⟨by decide, (c10_filter_unrecognized_level "VERBOSE" 3 sampleEvent).1 (by decide)⟩,
   ⟨rfl, (c10_filter_unrecognized_level "warn" 3 sampleEvent).2 levels.WARN rfl⟩⟩
